import Mathlib

/-!
Verification of the harmonizer script-host bridge (src/harmonizer/src/compose.rs
and src/harmonizer/src/plan.rs): the data model (ServiceDefinition, ServiceList,
OperationalContext, QueryPlanOptions, CompositionError, PlanningError), the
serde-style camelCase marshaling into the JavaScript runtime, the result
rendezvous deserialization, and the compose/plan call-shapes.

The embedded JavaScript module (dist/bridge.js, js/do_compose.js, js/do_plan.js)
is not part of the Rust sources; where its behavior decides a claim it is
modelled from the specification and clearly marked as such.
-/

namespace Federation

/-- The ServiceDefinition struct from compose.rs: name, url and the SDL text,
exactly the three public String fields of the Rust struct. -/
structure ServiceDefinition where
  name : String
  url : String
  type_defs : String
  deriving Repr, DecidableEq

/-- ServiceList from compose.rs: a Vec of ServiceDefinition, i.e. an ordered
sequence. -/
def ServiceList := List ServiceDefinition

/-- The extensions carried by a CompositionError, from compose.rs: a single
String field code. -/
structure CompositionErrorExtensions where
  code : String
  deriving Repr, DecidableEq

/-- CompositionError from compose.rs: optional message, optional extensions. -/
structure CompositionError where
  message : Option String
  extensions : Option CompositionErrorExtensions
  deriving Repr, DecidableEq

/-- CompositionError::code from compose.rs lines 107-115: the extensions code
when present, otherwise the sentinel UNKNOWN. -/
def CompositionError.code (e : CompositionError) : String :=
  match e.extensions with
  | some ext => ext.code
  | none => "UNKNOWN"

/-- The Display implementation for CompositionError from compose.rs lines
68-76: code-colon-space-message when a message is present, the bare code
otherwise. -/
def CompositionError.display (e : CompositionError) : String :=
  match e.message with
  | some msg => e.code ++ ": " ++ msg
  | none => e.code

/-- The extensions carried by a PlanningError, from plan.rs: a single String
field code. -/
structure PlanningErrorExtensions where
  code : String
  deriving Repr, DecidableEq

/-- PlanningError from plan.rs: optional message, optional extensions. -/
structure PlanningError where
  message : Option String
  extensions : Option PlanningErrorExtensions
  deriving Repr, DecidableEq

/-- PlanningError::code from plan.rs lines 80-88: the extensions code when
present, otherwise the sentinel UNKNOWN. -/
def PlanningError.code (e : PlanningError) : String :=
  match e.extensions with
  | some ext => ext.code
  | none => "UNKNOWN"

/-- The Display implementation for PlanningError from plan.rs lines 61-69. -/
def PlanningError.display (e : PlanningError) : String :=
  match e.message with
  | some msg => e.code ++ ": " ++ msg
  | none => e.code

/-- QueryPlanOptions from plan.rs: the single boolean option
auto_fragmentization. -/
structure QueryPlanOptions where
  auto_fragmentization : Bool
  deriving Repr, DecidableEq

/-- The QueryPlanOptionsDefault trait constant DEFAULT from plan.rs lines
22-31: auto_fragmentization is false. -/
def QueryPlanOptions.DEFAULT : QueryPlanOptions :=
  { auto_fragmentization := false }

/-- OperationalContext from plan.rs: schema text, query text and operation
name. -/
structure OperationalContext where
  schema : String
  query : String
  operation : String
  deriving Repr, DecidableEq

/-- Serde RenameRule camelCase applied to a snake_case identifier, modelling
the serde attribute rename_all camelCase on the Rust structs: drop each
underscore and capitalize the letter that followed it. -/
def camelChars : List Char → List Char
  | [] => []
  | '_' :: c :: rest => c.toUpper :: camelChars rest
  | c :: rest => c :: camelChars rest

/-- camelCase on strings, via camelChars. -/
def camelCase (s : String) : String :=
  ⟨camelChars s.data⟩

/-- JSON values, the data-interchange form serde_json serializes into and the
shape of values handed back by the JavaScript runtime. -/
inductive Json where
  | null : Json
  | bool : Bool → Json
  | num : Int → Json
  | str : String → Json
  | arr : List Json → Json
  | obj : List (String × Json) → Json
  deriving Repr

/-- The keys of a JSON object value (empty for non-objects). -/
def objKeys : Json → List String
  | .obj fields => fields.map Prod.fst
  | _ => []

/-- The JSON value of a ServiceDefinition as serde serializes it: field order
as declared, keys camelCased from the Rust snake_case field names. -/
def serviceValue (s : ServiceDefinition) : Json :=
  .obj [(camelCase "name", .str s.name),
        (camelCase "url", .str s.url),
        (camelCase "type_defs", .str s.type_defs)]

/-- The JSON value of a ServiceList: the array of its services in order. -/
def serviceListValue (l : ServiceList) : Json :=
  .arr (l.map serviceValue)

/-- The JSON value of an OperationalContext as serde serializes it. -/
def contextValue (c : OperationalContext) : Json :=
  .obj [(camelCase "schema", .str c.schema),
        (camelCase "query", .str c.query),
        (camelCase "operation", .str c.operation)]

/-- The JSON value of QueryPlanOptions as serde serializes it. -/
def optionsValue (o : QueryPlanOptions) : Json :=
  .obj [(camelCase "auto_fragmentization", .bool o.auto_fragmentization)]

/-- Runtime global bindings of one JavaScript isolate: the only mutable state
the bridge shares with the embedded module. -/
def RuntimeGlobals := List (String × Json)

/-- JsRuntime::new with Default::default() from compose.rs line 122 and
plan.rs line 94: a fresh isolate whose global store starts empty and carries
nothing from any prior call. -/
def newRuntime : RuntimeGlobals := []

/-- Evaluating a global assignment such as serviceList = ... in the isolate. -/
def setGlobal (g : RuntimeGlobals) (k : String) (v : Json) : RuntimeGlobals :=
  (k, v) :: g

/-- Reading a global binding from the isolate. -/
def getGlobal (g : RuntimeGlobals) (k : String) : Option Json :=
  List.lookup k g

/-- Serde deserialization of an Option String struct field: absent or null
means none, a JSON string means some, anything else fails. -/
def decodeOptMessage : Option Json → Option (Option String)
  | none => some none
  | some .null => some none
  | some (.str s) => some (some s)
  | some _ => none

/-- Serde deserialization of CompositionErrorExtensions: a JSON object whose
code field is a string. -/
def decodeCompositionExtensions : Json → Option CompositionErrorExtensions
  | .obj fields =>
    match List.lookup "code" fields with
    | some (.str c) => some { code := c }
    | _ => none
  | _ => none

/-- Serde deserialization of the Option CompositionErrorExtensions field. -/
def decodeOptCompositionExtensions : Option Json → Option (Option CompositionErrorExtensions)
  | none => some none
  | some .null => some none
  | some j => (decodeCompositionExtensions j).map some

/-- Serde deserialization of one CompositionError from a JSON value. -/
def decodeCompositionError : Json → Option CompositionError
  | .obj fields => do
    let m ← decodeOptMessage (List.lookup "message" fields)
    let e ← decodeOptCompositionExtensions (List.lookup "extensions" fields)
    pure { message := m, extensions := e }
  | _ => none

/-- Serde deserialization of the Rust Result of String or Vec CompositionError
that compose.rs line 155 targets: the externally tagged form, a single-entry
map keyed Ok or Err. -/
def decodeCompositionResult : Json → Option (Except (List CompositionError) String)
  | .obj [(k, v)] =>
    if k = "Ok" then
      match v with
      | .str s => some (.ok s)
      | _ => none
    else if k = "Err" then
      match v with
      | .arr xs => (xs.mapM decodeCompositionError).map .error
      | _ => none
    else none
  | _ => none

/-- Serde deserialization of PlanningErrorExtensions. -/
def decodePlanningExtensions : Json → Option PlanningErrorExtensions
  | .obj fields =>
    match List.lookup "code" fields with
    | some (.str c) => some { code := c }
    | _ => none
  | _ => none

/-- Serde deserialization of the Option PlanningErrorExtensions field. -/
def decodeOptPlanningExtensions : Option Json → Option (Option PlanningErrorExtensions)
  | none => some none
  | some .null => some none
  | some j => (decodePlanningExtensions j).map some

/-- Serde deserialization of one PlanningError from a JSON value. -/
def decodePlanningError : Json → Option PlanningError
  | .obj fields => do
    let m ← decodeOptMessage (List.lookup "message" fields)
    let e ← decodeOptPlanningExtensions (List.lookup "extensions" fields)
    pure { message := m, extensions := e }
  | _ => none

/-- Serde deserialization of the Rust Result of String or Vec PlanningError
that plan.rs line 127 targets. -/
def decodePlanningResult : Json → Option (Except (List PlanningError) String)
  | .obj [(k, v)] =>
    if k = "Ok" then
      match v with
      | .str s => some (.ok s)
      | _ => none
    else if k = "Err" then
      match v with
      | .arr xs => (xs.mapM decodePlanningError).map .error
      | _ => none
    else none
  | _ => none

/-- The observable outcome of one bridge call: either a value was delivered
through the rendezvous channel and returned to the caller, or the op callback
panicked via expect and the call never returns normally. -/
inductive BridgeOutcome (E : Type) where
  | delivered : Except (List E) String → BridgeOutcome E
  | panicked : String → BridgeOutcome E
  deriving Repr

/-- The op_composition_result callback of compose.rs lines 152-162: it
deserializes the delivered value and sends the typed result into the channel;
a value it cannot deserialize makes the expect call panic with the message
written in the source. -/
def composeDeliver (v : Json) : BridgeOutcome CompositionError :=
  match decodeCompositionResult v with
  | some r => .delivered r
  | none => .panicked "deserializing composition result"

/-- The op_composition_result callback of plan.rs lines 124-134, with the
panic message written in that source file. -/
def planDeliver (v : Json) : BridgeOutcome PlanningError :=
  match decodePlanningResult v with
  | some r => .delivered r
  | none => .panicked "deserializing composition result"

/-- The embedded composition module together with its driver do_compose.js,
viewed as a black box: it reads the isolate globals and produces the value it
passes to the result callback. -/
def ComposeModule := RuntimeGlobals → Json

/-- The embedded planning module together with its driver do_plan.js, viewed
as a black box over the isolate globals. -/
def PlanModule := RuntimeGlobals → Json

/-- The compose function of compose.rs lines 120-195: allocate a fresh
isolate (independent of any prior state), inject the serviceList global, run
the module and driver, and return what the rendezvous receives. -/
def compose (module : ComposeModule) (prior : RuntimeGlobals)
    (service_list : ServiceList) : BridgeOutcome CompositionError :=
  let rt := newRuntime
  let rt := setGlobal rt "serviceList" (serviceListValue service_list)
  composeDeliver (module rt)

/-- The plan function of plan.rs lines 92-177: allocate a fresh isolate,
inject the context and options globals, run the module and driver, and return
what the rendezvous receives. -/
def plan (module : PlanModule) (prior : RuntimeGlobals)
    (context : OperationalContext) (options : QueryPlanOptions) :
    BridgeOutcome PlanningError :=
  let rt := newRuntime
  let rt := setGlobal rt "context" (contextValue context)
  let rt := setGlobal rt "options" (optionsValue options)
  planDeliver (module rt)

/-- Modelled from the spec: the embedded module contract of spec section 6.
The JavaScript side (dist/bridge.js and js/do_compose.js, not present under
src/) delivers either a success string or a non-empty array of decodable
composition errors. -/
def WellFormedComposeModule (m : ComposeModule) : Prop :=
  ∀ g, (∃ s, m g = .obj [("Ok", .str s)]) ∨
    (∃ es, es ≠ [] ∧ (∀ e ∈ es, (decodeCompositionError e).isSome) ∧
      m g = .obj [("Err", .arr es)])

/-- Modelled from the spec: the embedded module contract of spec section 6
for the planning side (dist/bridge.js and js/do_plan.js, not present under
src/). -/
def WellFormedPlanModule (m : PlanModule) : Prop :=
  ∀ g, (∃ s, m g = .obj [("Ok", .str s)]) ∨
    (∃ es, es ≠ [] ∧ (∀ e ∈ es, (decodePlanningError e).isSome) ∧
      m g = .obj [("Err", .arr es)])

theorem mapM_isSome_length {α β : Type} (f : α → Option β) :
    ∀ xs : List α, (∀ x ∈ xs, (f x).isSome) →
      ∃ ys : List β, xs.mapM f = some ys ∧ ys.length = xs.length := by
  intro xs
  induction xs with
  | nil => intro _; exact ⟨[], rfl, rfl⟩
  | cons x xs ih =>
    intro h
    obtain ⟨y, hy⟩ := Option.isSome_iff_exists.mp (h x (List.mem_cons_self x xs))
    obtain ⟨ys, hys, hlen⟩ := ih (fun a ha => h a (List.mem_cons_of_mem x ha))
    refine ⟨y :: ys, ?_, by simp [hlen]⟩
    rw [List.mapM_cons, hy, hys]
    rfl

/-- C3: for every CompositionError and every PlanningError, code() returns the
extensions code string when extensions is present and the sentinel UNKNOWN
when extensions is absent. -/
theorem code_from_extensions_or_unknown (m : Option String) (c : String) :
    CompositionError.code { message := m, extensions := some { code := c } } = c ∧
    CompositionError.code { message := m, extensions := none } = "UNKNOWN" ∧
    PlanningError.code { message := m, extensions := some { code := c } } = c ∧
    PlanningError.code { message := m, extensions := none } = "UNKNOWN" :=
  ⟨rfl, rfl, rfl, rfl⟩

/-- C10: the Display rendering of a CompositionError or PlanningError is
code-colon-space-message when the message is present, and exactly the code
when the message is absent. -/
theorem display_code_colon_message (m : String)
    (ec : Option CompositionErrorExtensions) (ep : Option PlanningErrorExtensions) :
    CompositionError.display { message := some m, extensions := ec } =
      CompositionError.code { message := some m, extensions := ec } ++ ": " ++ m ∧
    CompositionError.display { message := none, extensions := ec } =
      CompositionError.code { message := none, extensions := ec } ∧
    PlanningError.display { message := some m, extensions := ep } =
      PlanningError.code { message := some m, extensions := ep } ++ ": " ++ m ∧
    PlanningError.display { message := none, extensions := ep } =
      PlanningError.code { message := none, extensions := ep } :=
  ⟨rfl, rfl, rfl, rfl⟩

/-- C6: marshaling camelCases the snake_case Rust field names at the boundary:
type_defs serializes as typeDefs, auto_fragmentization as autoFragmentization,
and the serialized objects for ServiceDefinition, OperationalContext and
QueryPlanOptions carry exactly the camelCased keys. -/
theorem marshaling_camel_cases_keys (svc : ServiceDefinition)
    (c : OperationalContext) (o : QueryPlanOptions) :
    camelCase "type_defs" = "typeDefs" ∧
    camelCase "auto_fragmentization" = "autoFragmentization" ∧
    objKeys (serviceValue svc) = ["name", "url", "typeDefs"] ∧
    objKeys (contextValue c) = ["schema", "query", "operation"] ∧
    objKeys (optionsValue o) = ["autoFragmentization"] :=
  ⟨rfl, rfl, rfl, rfl, rfl⟩

/-- C9: the default QueryPlanOptions has auto_fragmentization false, and
auto_fragmentization is the only option: options are determined by it and its
serialized form carries exactly that one binding. -/
theorem default_options_and_single_option :
    QueryPlanOptions.DEFAULT.auto_fragmentization = false ∧
    (∀ o : QueryPlanOptions, o = { auto_fragmentization := o.auto_fragmentization }) ∧
    (∀ o : QueryPlanOptions,
      optionsValue o = .obj [("autoFragmentization", .bool o.auto_fragmentization)]) :=
  ⟨rfl, fun _ => rfl, fun _ => rfl⟩

/-- C1: under the embedded-module contract, every compose or plan invocation
that returns to the caller returns exactly one of a success string or a
non-empty list of errors (the two BridgeOutcome.delivered shapes are mutually
exclusive constructors of Except). -/
theorem bridge_returns_success_xor_nonempty_errors
    (mc : ComposeModule) (mp : PlanModule) (prior : RuntimeGlobals)
    (l : ServiceList) (c : OperationalContext) (o : QueryPlanOptions)
    (hc : WellFormedComposeModule mc) (hp : WellFormedPlanModule mp) :
    ((∃ s, compose mc prior l = .delivered (.ok s)) ∨
      (∃ es, es ≠ [] ∧ compose mc prior l = .delivered (.error es))) ∧
    ((∃ s, plan mp prior c o = .delivered (.ok s)) ∨
      (∃ es, es ≠ [] ∧ plan mp prior c o = .delivered (.error es))) := by
  constructor
  · rcases hc (setGlobal newRuntime "serviceList" (serviceListValue l)) with
      ⟨s, hs⟩ | ⟨es, hne, hdec, heq⟩
    · left
      exact ⟨s, by simp [compose, composeDeliver, hs, decodeCompositionResult]⟩
    · right
      obtain ⟨ys, hys, hlen⟩ := mapM_isSome_length decodeCompositionError es hdec
      have hres : decodeCompositionResult (Json.obj [("Err", Json.arr es)]) =
          some (Except.error ys) := by
        show (es.mapM decodeCompositionError).map Except.error = some (Except.error ys)
        rw [hys]
        rfl
      refine ⟨ys, ?_, ?_⟩
      · intro habs
        rw [habs] at hlen
        exact hne (List.eq_nil_of_length_eq_zero hlen.symm)
      · show composeDeliver (mc (setGlobal newRuntime "serviceList" (serviceListValue l))) =
          BridgeOutcome.delivered (Except.error ys)
        rw [heq]
        unfold composeDeliver
        rw [hres]
  · rcases hp (setGlobal (setGlobal newRuntime "context" (contextValue c))
      "options" (optionsValue o)) with ⟨s, hs⟩ | ⟨es, hne, hdec, heq⟩
    · left
      exact ⟨s, by simp [plan, planDeliver, hs, decodePlanningResult]⟩
    · right
      obtain ⟨ys, hys, hlen⟩ := mapM_isSome_length decodePlanningError es hdec
      have hres : decodePlanningResult (Json.obj [("Err", Json.arr es)]) =
          some (Except.error ys) := by
        show (es.mapM decodePlanningError).map Except.error = some (Except.error ys)
        rw [hys]
        rfl
      refine ⟨ys, ?_, ?_⟩
      · intro habs
        rw [habs] at hlen
        exact hne (List.eq_nil_of_length_eq_zero hlen.symm)
      · show planDeliver (mp (setGlobal (setGlobal newRuntime "context" (contextValue c))
          "options" (optionsValue o))) = BridgeOutcome.delivered (Except.error ys)
        rw [heq]
        unfold planDeliver
        rw [hres]

/-- Witness for C1 at a concrete well-formed module pair and concrete inputs. -/
theorem bridge_returns_success_xor_nonempty_errors_witness :
    ((∃ s, compose (fun _ => Json.obj [("Ok", Json.str "sdl")]) [] [] =
        .delivered (.ok s)) ∨
      (∃ es, es ≠ [] ∧ compose (fun _ => Json.obj [("Ok", Json.str "sdl")]) [] [] =
        .delivered (.error es))) ∧
    ((∃ s, plan (fun _ => Json.obj [("Ok", Json.str "queryPlan")]) []
        { schema := "s", query := "q", operation := "" }
        QueryPlanOptions.DEFAULT = .delivered (.ok s)) ∨
      (∃ es, es ≠ [] ∧ plan (fun _ => Json.obj [("Ok", Json.str "queryPlan")]) []
        { schema := "s", query := "q", operation := "" }
        QueryPlanOptions.DEFAULT = .delivered (.error es))) :=
  bridge_returns_success_xor_nonempty_errors
    (fun _ => Json.obj [("Ok", Json.str "sdl")])
    (fun _ => Json.obj [("Ok", Json.str "queryPlan")]) [] []
    { schema := "s", query := "q", operation := "" } QueryPlanOptions.DEFAULT
    (fun _ => Or.inl ⟨"sdl", rfl⟩) (fun _ => Or.inl ⟨"queryPlan", rfl⟩)

/-- C8: a delivered value the bridge cannot deserialize makes the call abort
with the contract-violation panic written in the source; a value is returned
to the caller only when it deserialized exactly to that returned result. -/
theorem undecodable_delivery_panics (v : Json) :
    (decodeCompositionResult v = none →
      composeDeliver v = .panicked "deserializing composition result") ∧
    (∀ r, composeDeliver v = .delivered r → decodeCompositionResult v = some r) ∧
    (decodePlanningResult v = none →
      planDeliver v = .panicked "deserializing composition result") ∧
    (∀ r, planDeliver v = .delivered r → decodePlanningResult v = some r) := by
  refine ⟨?_, ?_, ?_, ?_⟩
  · intro h
    simp [composeDeliver, h]
  · intro r h
    unfold composeDeliver at h
    cases hd : decodeCompositionResult v with
    | none => rw [hd] at h; exact absurd h (by simp)
    | some r0 => rw [hd] at h; simp at h; rw [h]
  · intro h
    simp [planDeliver, h]
  · intro r h
    unfold planDeliver at h
    cases hd : decodePlanningResult v with
    | none => rw [hd] at h; exact absurd h (by simp)
    | some r0 => rw [hd] at h; simp at h; rw [h]

/-- Witness for C8 at the concrete undecodable value 0. -/
theorem undecodable_delivery_panics_witness :
    composeDeliver (Json.num 0) = .panicked "deserializing composition result" ∧
    planDeliver (Json.num 0) = .panicked "deserializing composition result" :=
  ⟨(undecodable_delivery_panics (Json.num 0)).1 rfl,
    (undecodable_delivery_panics (Json.num 0)).2.2.1 rfl⟩

/-- Reading an OperationalContext back from the injected context global, as
the JavaScript side sees it (camelCased keys). -/
def decodeContextValue : Json → Option OperationalContext
  | .obj fields =>
    match List.lookup "schema" fields, List.lookup "query" fields,
        List.lookup "operation" fields with
    | some (.str s), some (.str q), some (.str op) => some ⟨s, q, op⟩
    | _, _, _ => none
  | _ => none

/-- Reading QueryPlanOptions back from the injected options global. -/
def decodeOptionsValue : Json → Option QueryPlanOptions
  | .obj fields =>
    match List.lookup "autoFragmentization" fields with
    | some (.bool b) => some ⟨b⟩
    | _ => none
  | _ => none

/-- Encoding of one PlanningError as the JavaScript side delivers it. -/
def encodePlanningError (e : PlanningError) : Json :=
  .obj [("message", match e.message with | some m => .str m | none => .null),
        ("extensions", match e.extensions with
          | some ext => .obj [("code", .str ext.code)]
          | none => .null)]

/-- Encoding of the planning result as the value handed to deliverResult. -/
def encodePlanResult : Except (List PlanningError) String → Json
  | .ok s => .obj [("Ok", .str s)]
  | .error es => .obj [("Err", .arr (es.map encodePlanningError))]

/-- The literal syntax-error message from the plan.rs tests. -/
def garbageMessage : String := "Syntax Error: Unexpected Name \"Garbage\"."

/-- Modelled from the spec: the planning algorithm inside dist/bridge.js and
js/do_plan.js, which is not present under src/. Per spec section 8, on the
literal schema input Garbage it reports exactly the single syntax error with
no extensions; on a valid schema with the literal query input Garbage it
reports the same shaped error; on valid pairs it produces a plan text
(abstracted here as a parameter). -/
def modelPlanBehavior (planText : OperationalContext → QueryPlanOptions → String)
    (c : OperationalContext) (o : QueryPlanOptions) :
    Except (List PlanningError) String :=
  if c.schema = "Garbage" then
    .error [{ message := some garbageMessage, extensions := none }]
  else if c.query = "Garbage" then
    .error [{ message := some garbageMessage, extensions := none }]
  else .ok (planText c o)

/-- Modelled from the spec: the embedded planning module as a PlanModule: it
reads the context and options globals the bridge injected and delivers the
encoded result of the planning algorithm. -/
def modelPlanModule (planText : OperationalContext → QueryPlanOptions → String) :
    PlanModule := fun g =>
  match getGlobal g "context", getGlobal g "options" with
  | some cj, some oj =>
    match decodeContextValue cj, decodeOptionsValue oj with
    | some c, some o => encodePlanResult (modelPlanBehavior planText c o)
    | _, _ => Json.null
  | _, _ => Json.null

theorem plan_model_run (planText : OperationalContext → QueryPlanOptions → String)
    (prior : RuntimeGlobals) (c : OperationalContext) (o : QueryPlanOptions) :
    plan (modelPlanModule planText) prior c o =
      planDeliver (encodePlanResult (modelPlanBehavior planText c o)) := rfl

/-- C2: plan with schema equal to the literal string Garbage returns exactly
the single-element error list carrying that syntax-error message and no
extensions, whose code() is UNKNOWN; and plan with a valid schema but the
literal query Garbage returns the same-shaped single error. -/
theorem plan_garbage_inputs
    (planText : OperationalContext → QueryPlanOptions → String)
    (prior : RuntimeGlobals) (q op : String) (opts : QueryPlanOptions) :
    plan (modelPlanModule planText) prior
        { schema := "Garbage", query := q, operation := op } opts =
      .delivered (.error [{ message := some garbageMessage, extensions := none }]) ∧
    PlanningError.code { message := some garbageMessage, extensions := none } =
      "UNKNOWN" ∧
    ∀ s : String, s ≠ "Garbage" →
      plan (modelPlanModule planText) prior
          { schema := s, query := "Garbage", operation := op } opts =
        .delivered (.error [{ message := some garbageMessage, extensions := none }]) := by
  refine ⟨?_, rfl, ?_⟩
  · rw [plan_model_run]
    rfl
  · intro s hs
    rw [plan_model_run]
    unfold modelPlanBehavior
    rw [if_neg hs, if_pos rfl]
    rfl

/-- Witness for C2 at concrete inputs. -/
theorem plan_garbage_inputs_witness :
    plan (modelPlanModule (fun _ _ => "PLAN")) []
        { schema := "Garbage", query := "q", operation := "" }
        QueryPlanOptions.DEFAULT =
      .delivered (.error [{ message := some garbageMessage, extensions := none }]) ∧
    plan (modelPlanModule (fun _ _ => "PLAN")) []
        { schema := "type Query", query := "Garbage", operation := "" }
        QueryPlanOptions.DEFAULT =
      .delivered (.error [{ message := some garbageMessage, extensions := none }]) := by
  have h := plan_garbage_inputs (fun _ _ => "PLAN") [] "q" "" QueryPlanOptions.DEFAULT
  exact ⟨h.1, h.2.2 "type Query" (by decide)⟩

/-- C4: plan is deterministic and hides no state: its outcome is independent
of any prior environment state (the isolate is created fresh per call), so
two calls with identical context and options return identical results; and on
every valid pair (modelled per the spec as inputs the planner does not reject)
it returns a success string. -/
theorem plan_deterministic_and_total_on_valid
    (m : PlanModule) (p1 p2 : RuntimeGlobals)
    (c : OperationalContext) (o : QueryPlanOptions) :
    plan m p1 c o = plan m p2 c o ∧
    ∀ planText : OperationalContext → QueryPlanOptions → String,
      c.schema ≠ "Garbage" → c.query ≠ "Garbage" →
      ∃ s, plan (modelPlanModule planText) p1 c o = .delivered (.ok s) := by
  refine ⟨rfl, ?_⟩
  intro planText h1 h2
  refine ⟨planText c o, ?_⟩
  rw [plan_model_run]
  unfold modelPlanBehavior
  rw [if_neg h1, if_neg h2]
  rfl

/-- Witness for C4 at concrete inputs. -/
theorem plan_deterministic_and_total_on_valid_witness :
    plan (modelPlanModule (fun _ _ => "PLAN")) [("leftover", Json.str "stale")]
        { schema := "type Query", query := "query q", operation := "" }
        QueryPlanOptions.DEFAULT =
      plan (modelPlanModule (fun _ _ => "PLAN")) []
        { schema := "type Query", query := "query q", operation := "" }
        QueryPlanOptions.DEFAULT ∧
    ∃ s, plan (modelPlanModule (fun _ _ => "PLAN")) [("leftover", Json.str "stale")]
        { schema := "type Query", query := "query q", operation := "" }
        QueryPlanOptions.DEFAULT = .delivered (.ok s) := by
  have h := plan_deterministic_and_total_on_valid
    (modelPlanModule (fun _ _ => "PLAN")) [("leftover", Json.str "stale")] []
    { schema := "type Query", query := "query q", operation := "" }
    QueryPlanOptions.DEFAULT
  exact ⟨h.1, h.2 (fun _ _ => "PLAN") (by decide) (by decide)⟩

/-- Opening brace character, written by code point. -/
def lbrace : Char := Char.ofNat 123

/-- Closing brace character, written by code point. -/
def rbrace : Char := Char.ofNat 125

/-- Lowercase hex digit character for a value below 16, as serde_json emits
in its escape sequences. -/
def hexDigitChar (n : Nat) : Char :=
  if n < 10 then Char.ofNat (48 + n) else Char.ofNat (87 + n)

/-- The character escaping of serde_json string serialization: quote and
backslash escaped, the named control escapes, the remaining control
characters below 32 as backslash-u00 with two lowercase hex digits, every
other character verbatim. -/
def escapeChar (c : Char) : List Char :=
  if c = '"' then ['\\', '"']
  else if c = '\\' then ['\\', '\\']
  else if c = Char.ofNat 8 then ['\\', 'b']
  else if c = Char.ofNat 9 then ['\\', 't']
  else if c = Char.ofNat 10 then ['\\', 'n']
  else if c = Char.ofNat 12 then ['\\', 'f']
  else if c = Char.ofNat 13 then ['\\', 'r']
  else if c.toNat < 32 then
    ['\\', 'u', '0', '0', hexDigitChar (c.toNat / 16), hexDigitChar (c.toNat % 16)]
  else [c]

/-- Serde_json serialization of a String: a quoted, escaped string literal. -/
def renderStr (s : String) : List Char :=
  '"' :: s.data.flatMap escapeChar ++ ['"']

/-- The characters of the JSON literal true. -/
def trueChars : List Char := ['t', 'r', 'u', 'e']

/-- The characters of the JSON literal false. -/
def falseChars : List Char := ['f', 'a', 'l', 's', 'e']

/-- Serde_json serialization of a Bool. -/
def renderBool (b : Bool) : List Char :=
  if b then trueChars else falseChars

/-- An object key as serialized by serde_json, with its separating colon. -/
def renderKey (k : String) : List Char :=
  renderStr k ++ [':']

/-- Serde_json compact serialization of one ServiceDefinition, fields in
declaration order with camelCased keys, as compose.rs line 182 produces via
serde_json to_string. -/
def renderService (s : ServiceDefinition) : List Char :=
  lbrace :: renderKey (camelCase "name") ++ renderStr s.name ++ [','] ++
    renderKey (camelCase "url") ++ renderStr s.url ++ [','] ++
    renderKey (camelCase "type_defs") ++ renderStr s.type_defs ++ [rbrace]

/-- Serde_json compact serialization of a ServiceList: the array of its
services in order. -/
def renderServiceList : ServiceList → List Char
  | [] => ['[', ']']
  | x :: xs => '[' :: renderService x ++
      xs.flatMap (fun s => ',' :: renderService s) ++ [']']

/-- Serde_json compact serialization of an OperationalContext, as plan.rs
line 154 produces. -/
def renderContext (c : OperationalContext) : List Char :=
  lbrace :: renderKey (camelCase "schema") ++ renderStr c.schema ++ [','] ++
    renderKey (camelCase "query") ++ renderStr c.query ++ [','] ++
    renderKey (camelCase "operation") ++ renderStr c.operation ++ [rbrace]

/-- Serde_json compact serialization of QueryPlanOptions, as plan.rs line 160
produces. -/
def renderOptions (o : QueryPlanOptions) : List Char :=
  lbrace :: renderKey (camelCase "auto_fragmentization") ++
    renderBool o.auto_fragmentization ++ [rbrace]

/-- The text compose.rs line 180 executes in the runtime: the serviceList
global assignment built by format with the serde_json serialization. -/
def composeInjectionText (l : ServiceList) : List Char :=
  "serviceList = ".data ++ renderServiceList l

/-- The text plan.rs line 152 executes: the context global assignment. -/
def contextInjectionText (c : OperationalContext) : List Char :=
  "context = ".data ++ renderContext c

/-- The text plan.rs line 158 executes: the options global assignment. -/
def optionsInjectionText (o : QueryPlanOptions) : List Char :=
  "options = ".data ++ renderOptions o

/-- The numeric value of one hex digit character, upper or lower case. -/
def decodeHexDigit (c : Char) : Option Nat :=
  if 48 ≤ c.toNat ∧ c.toNat ≤ 57 then some (c.toNat - 48)
  else if 97 ≤ c.toNat ∧ c.toNat ≤ 102 then some (c.toNat - 87)
  else if 65 ≤ c.toNat ∧ c.toNat ≤ 70 then some (c.toNat - 55)
  else none

/-- The value of a four-hex-digit escape sequence. -/
def decodeHex4 (h1 h2 h3 h4 : Char) : Option Nat := do
  let a ← decodeHexDigit h1
  let b ← decodeHexDigit h2
  let c ← decodeHexDigit h3
  let d ← decodeHexDigit h4
  pure (((a * 16 + b) * 16 + c) * 16 + d)

/-- The character denoted by a single-character JSON escape. -/
def decodeEscape (c : Char) : Option Char :=
  if c = '"' then some '"'
  else if c = '\\' then some '\\'
  else if c = '/' then some '/'
  else if c = 'b' then some (Char.ofNat 8)
  else if c = 'f' then some (Char.ofNat 12)
  else if c = 'n' then some (Char.ofNat 10)
  else if c = 'r' then some (Char.ofNat 13)
  else if c = 't' then some (Char.ofNat 9)
  else none

/-- Reader for the body of a JSON string literal after its opening quote:
returns the denoted characters and the input following the closing quote.
The fuel argument bounds the recursion; one unit per denoted character plus
one for the closing quote always suffices. -/
def parseStringBodyF : Nat → List Char → Option (List Char × List Char)
  | 0, _ => none
  | fuel + 1, l =>
    match l with
    | [] => none
    | c :: rest =>
      if c = '"' then some ([], rest)
      else if c = '\\' then
        match rest with
        | [] => none
        | e :: rest2 =>
          if e = 'u' then
            match rest2 with
            | h1 :: h2 :: h3 :: h4 :: rest3 =>
              match decodeHex4 h1 h2 h3 h4 with
              | some n =>
                Option.map (fun p => (Char.ofNat n :: p.1, p.2))
                  (parseStringBodyF fuel rest3)
              | none => none
            | _ => none
          else
            match decodeEscape e with
            | some ch =>
              Option.map (fun p => (ch :: p.1, p.2)) (parseStringBodyF fuel rest2)
            | none => none
      else Option.map (fun p => (c :: p.1, p.2)) (parseStringBodyF fuel rest)

/-- Reader for a complete JSON string literal: the String it denotes and the
remaining input. -/
def parseStringLit : List Char → Option (String × List Char)
  | c :: rest =>
    if c = '"' then
      Option.map (fun p => ((⟨p.1⟩ : String), p.2))
        (parseStringBodyF (rest.length + 1) rest)
    else none
  | [] => none

/-- Consume an expected literal character sequence from the input. -/
def expectChars : List Char → List Char → Option (List Char)
  | [], l => some l
  | _ :: _, [] => none
  | e :: es, c :: cs => if c = e then expectChars es cs else none

/-- Reader for the serialized form of one ServiceDefinition. -/
def parseService (l : List Char) : Option (ServiceDefinition × List Char) := do
  let l ← expectChars [lbrace] l
  let l ← expectChars (renderKey (camelCase "name")) l
  let (n, l) ← parseStringLit l
  let l ← expectChars [','] l
  let l ← expectChars (renderKey (camelCase "url")) l
  let (u, l) ← parseStringLit l
  let l ← expectChars [','] l
  let l ← expectChars (renderKey (camelCase "type_defs")) l
  let (t, l) ← parseStringLit l
  let l ← expectChars [rbrace] l
  pure ({ name := n, url := u, type_defs := t }, l)

/-- Reader for the serialized form of an OperationalContext. -/
def parseContext (l : List Char) : Option (OperationalContext × List Char) := do
  let l ← expectChars [lbrace] l
  let l ← expectChars (renderKey (camelCase "schema")) l
  let (s, l) ← parseStringLit l
  let l ← expectChars [','] l
  let l ← expectChars (renderKey (camelCase "query")) l
  let (q, l) ← parseStringLit l
  let l ← expectChars [','] l
  let l ← expectChars (renderKey (camelCase "operation")) l
  let (op, l) ← parseStringLit l
  let l ← expectChars [rbrace] l
  pure ({ schema := s, query := q, operation := op }, l)

/-- Reader for a JSON boolean. -/
def parseBool (l : List Char) : Option (Bool × List Char) :=
  match expectChars trueChars l with
  | some r => some (true, r)
  | none =>
    match expectChars falseChars l with
    | some r => some (false, r)
    | none => none

/-- Reader for the serialized form of QueryPlanOptions. -/
def parseOptions (l : List Char) : Option (QueryPlanOptions × List Char) := do
  let l ← expectChars [lbrace] l
  let l ← expectChars (renderKey (camelCase "auto_fragmentization")) l
  let (b, l) ← parseBool l
  let l ← expectChars [rbrace] l
  pure ({ auto_fragmentization := b }, l)

/-- Reader for the tail of a serialized service array: a comma and a service,
repeated, then the closing bracket. Fuel bounds the recursion. -/
def parseServiceListAux : Nat → List Char → Option (List ServiceDefinition × List Char)
  | 0, _ => none
  | fuel + 1, l =>
    match l with
    | ']' :: rest => some ([], rest)
    | ',' :: rest => do
      let (s, l2) ← parseService rest
      let (ss, l3) ← parseServiceListAux fuel l2
      pure (s :: ss, l3)
    | _ => none

/-- Reader for a serialized service array. -/
def parseServiceList (l : List Char) : Option (List ServiceDefinition × List Char) :=
  match l with
  | '[' :: ']' :: rest => some ([], rest)
  | '[' :: rest => do
    let (s, l2) ← parseService rest
    let (ss, l3) ← parseServiceListAux (l2.length + 1) l2
    pure (s :: ss, l3)
  | _ => none

theorem psb_close (f : Nat) (rest : List Char) :
    parseStringBodyF (f + 1) ('"' :: rest) = some ([], rest) := rfl

theorem psb_q (f : Nat) (rest : List Char) :
    parseStringBodyF (f + 1) ('\\' :: '"' :: rest) =
      Option.map (fun p => ('"' :: p.1, p.2)) (parseStringBodyF f rest) := rfl

theorem psb_bs (f : Nat) (rest : List Char) :
    parseStringBodyF (f + 1) ('\\' :: '\\' :: rest) =
      Option.map (fun p => ('\\' :: p.1, p.2)) (parseStringBodyF f rest) := rfl

theorem psb_b (f : Nat) (rest : List Char) :
    parseStringBodyF (f + 1) ('\\' :: 'b' :: rest) =
      Option.map (fun p => (Char.ofNat 8 :: p.1, p.2)) (parseStringBodyF f rest) := rfl

theorem psb_t (f : Nat) (rest : List Char) :
    parseStringBodyF (f + 1) ('\\' :: 't' :: rest) =
      Option.map (fun p => (Char.ofNat 9 :: p.1, p.2)) (parseStringBodyF f rest) := rfl

theorem psb_n (f : Nat) (rest : List Char) :
    parseStringBodyF (f + 1) ('\\' :: 'n' :: rest) =
      Option.map (fun p => (Char.ofNat 10 :: p.1, p.2)) (parseStringBodyF f rest) := rfl

theorem psb_f (f : Nat) (rest : List Char) :
    parseStringBodyF (f + 1) ('\\' :: 'f' :: rest) =
      Option.map (fun p => (Char.ofNat 12 :: p.1, p.2)) (parseStringBodyF f rest) := rfl

theorem psb_r (f : Nat) (rest : List Char) :
    parseStringBodyF (f + 1) ('\\' :: 'r' :: rest) =
      Option.map (fun p => (Char.ofNat 13 :: p.1, p.2)) (parseStringBodyF f rest) := rfl

theorem psb_u (f : Nat) (d1 d2 : Char) (n : Nat)
    (hn : decodeHex4 '0' '0' d1 d2 = some n) (rest : List Char) :
    parseStringBodyF (f + 1) ('\\' :: 'u' :: '0' :: '0' :: d1 :: d2 :: rest) =
      Option.map (fun p => (Char.ofNat n :: p.1, p.2)) (parseStringBodyF f rest) := by
  show (match decodeHex4 '0' '0' d1 d2 with
    | some m => Option.map (fun p => (Char.ofNat m :: p.1, p.2)) (parseStringBodyF f rest)
    | none => none) =
    Option.map (fun p => (Char.ofNat n :: p.1, p.2)) (parseStringBodyF f rest)
  rw [hn]

theorem psb_plain (f : Nat) (c : Char) (h1 : c ≠ '"') (h2 : c ≠ '\\')
    (rest : List Char) :
    parseStringBodyF (f + 1) (c :: rest) =
      Option.map (fun p => (c :: p.1, p.2)) (parseStringBodyF f rest) := by
  show (if c = '"' then some ([], rest)
    else if c = '\\' then
      (match rest with
      | [] => none
      | e :: rest2 =>
        if e = 'u' then
          match rest2 with
          | h1 :: h2 :: h3 :: h4 :: rest3 =>
            match decodeHex4 h1 h2 h3 h4 with
            | some n =>
              Option.map (fun p => (Char.ofNat n :: p.1, p.2))
                (parseStringBodyF f rest3)
            | none => none
          | _ => none
        else
          match decodeEscape e with
          | some ch =>
            Option.map (fun p => (ch :: p.1, p.2)) (parseStringBodyF f rest2)
          | none => none)
    else Option.map (fun p => (c :: p.1, p.2)) (parseStringBodyF f rest)) =
    Option.map (fun p => (c :: p.1, p.2)) (parseStringBodyF f rest)
  rw [if_neg h1, if_neg h2]

theorem escapeChar_length_pos (c : Char) : 1 ≤ (escapeChar c).length := by
  unfold escapeChar
  repeat' split
  all_goals simp

theorem length_le_flatMap_escape (cs : List Char) :
    cs.length ≤ (cs.flatMap escapeChar).length := by
  induction cs with
  | nil => simp
  | cons c cs ih =>
    rw [List.flatMap_cons, List.length_append]
    simp only [List.length_cons]
    have := escapeChar_length_pos c
    omega

theorem decodeHexDigit_hexDigitChar (n : Nat) (h : n < 16) :
    decodeHexDigit (hexDigitChar n) = some n := by
  interval_cases n <;> decide

theorem decodeHex4_encode (c : Char) (h : c.toNat < 32) :
    decodeHex4 '0' '0' (hexDigitChar (c.toNat / 16)) (hexDigitChar (c.toNat % 16)) =
      some c.toNat := by
  have h1 : c.toNat / 16 < 16 := by omega
  have h2 : c.toNat % 16 < 16 := by omega
  simp only [decodeHex4, show decodeHexDigit '0' = some 0 from rfl,
    decodeHexDigit_hexDigitChar _ h1, decodeHexDigit_hexDigitChar _ h2]
  show some (((0 * 16 + 0) * 16 + c.toNat / 16) * 16 + c.toNat % 16) = some c.toNat
  congr 1
  omega

theorem parseStringBodyF_flatMap (cs : List Char) :
    ∀ (fuel : Nat) (rest : List Char), cs.length < fuel →
      parseStringBodyF fuel (cs.flatMap escapeChar ++ '"' :: rest) = some (cs, rest) := by
  induction cs with
  | nil =>
    intro fuel rest h
    match fuel, h with
    | f + 1, _ =>
      simp only [List.flatMap_nil, List.nil_append]
      exact psb_close f rest
  | cons c cs ih =>
    intro fuel rest h
    match fuel, h with
    | f + 1, h =>
      have hf : cs.length < f := by
        simp only [List.length_cons] at h
        omega
      rw [List.flatMap_cons, List.append_assoc]
      by_cases h1 : c = '"'
      · subst h1
        rw [show escapeChar '"' = ['\\', '"'] from rfl]
        simp only [List.cons_append, List.nil_append]
        rw [psb_q, ih f rest hf]
        rfl
      · by_cases h2 : c = '\\'
        · subst h2
          rw [show escapeChar '\\' = ['\\', '\\'] from rfl]
          simp only [List.cons_append, List.nil_append]
          rw [psb_bs, ih f rest hf]
          rfl
        · by_cases h3 : c = Char.ofNat 8
          · subst h3
            rw [show escapeChar (Char.ofNat 8) = ['\\', 'b'] from rfl]
            simp only [List.cons_append, List.nil_append]
            rw [psb_b, ih f rest hf]
            rfl
          · by_cases h4 : c = Char.ofNat 9
            · subst h4
              rw [show escapeChar (Char.ofNat 9) = ['\\', 't'] from rfl]
              simp only [List.cons_append, List.nil_append]
              rw [psb_t, ih f rest hf]
              rfl
            · by_cases h5 : c = Char.ofNat 10
              · subst h5
                rw [show escapeChar (Char.ofNat 10) = ['\\', 'n'] from rfl]
                simp only [List.cons_append, List.nil_append]
                rw [psb_n, ih f rest hf]
                rfl
              · by_cases h6 : c = Char.ofNat 12
                · subst h6
                  rw [show escapeChar (Char.ofNat 12) = ['\\', 'f'] from rfl]
                  simp only [List.cons_append, List.nil_append]
                  rw [psb_f, ih f rest hf]
                  rfl
                · by_cases h7 : c = Char.ofNat 13
                  · subst h7
                    rw [show escapeChar (Char.ofNat 13) = ['\\', 'r'] from rfl]
                    simp only [List.cons_append, List.nil_append]
                    rw [psb_r, ih f rest hf]
                    rfl
                  · by_cases h8 : c.toNat < 32
                    · have hesc : escapeChar c = ['\\', 'u', '0', '0',
                          hexDigitChar (c.toNat / 16), hexDigitChar (c.toNat % 16)] := by
                        unfold escapeChar
                        rw [if_neg h1, if_neg h2, if_neg h3, if_neg h4, if_neg h5,
                          if_neg h6, if_neg h7, if_pos h8]
                      rw [hesc]
                      simp only [List.cons_append, List.nil_append]
                      rw [psb_u f _ _ c.toNat (decodeHex4_encode c h8), ih f rest hf]
                      show some (Char.ofNat c.toNat :: cs, rest) = some (c :: cs, rest)
                      rw [Char.ofNat_toNat]
                    · have hesc : escapeChar c = [c] := by
                        unfold escapeChar
                        rw [if_neg h1, if_neg h2, if_neg h3, if_neg h4, if_neg h5,
                          if_neg h6, if_neg h7, if_neg h8]
                      rw [hesc]
                      simp only [List.cons_append, List.nil_append]
                      rw [psb_plain f c h1 h2, ih f rest hf]
                      rfl

theorem parseStringLit_render (s : String) (rest : List Char) :
    parseStringLit (renderStr s ++ rest) = some (s, rest) := by
  have hshape : renderStr s ++ rest =
      '"' :: (s.data.flatMap escapeChar ++ '"' :: rest) := by
    simp [renderStr]
  rw [hshape]
  have hfuel : s.data.length <
      (s.data.flatMap escapeChar ++ '"' :: rest).length + 1 := by
    have := length_le_flatMap_escape s.data
    simp only [List.length_append, List.length_cons]
    omega
  show Option.map (fun p => ((⟨p.1⟩ : String), p.2))
      (parseStringBodyF ((s.data.flatMap escapeChar ++ '"' :: rest).length + 1)
        (s.data.flatMap escapeChar ++ '"' :: rest)) = some (s, rest)
  rw [parseStringBodyF_flatMap s.data _ rest hfuel]
  rfl

theorem expectChars_append (p rest : List Char) : expectChars p (p ++ rest) = some rest := by
  induction p with
  | nil => rfl
  | cons c cs ih => simp [expectChars, ih]

theorem expectChars_cons_self (c : Char) (rest : List Char) :
    expectChars [c] (c :: rest) = some rest := by
  simp [expectChars]

theorem parseService_render (svc : ServiceDefinition) (rest : List Char) :
    parseService (renderService svc ++ rest) = some (svc, rest) := by
  rw [renderService]
  simp only [List.cons_append, List.append_assoc, List.singleton_append]
  simp [parseService, expectChars_cons_self, expectChars_append, parseStringLit_render]

theorem parseContext_render (c : OperationalContext) (rest : List Char) :
    parseContext (renderContext c ++ rest) = some (c, rest) := by
  rw [renderContext]
  simp only [List.cons_append, List.append_assoc, List.singleton_append]
  simp [parseContext, expectChars_cons_self, expectChars_append, parseStringLit_render]

theorem parseBool_render (b : Bool) (rest : List Char) :
    parseBool (renderBool b ++ rest) = some (b, rest) := by
  cases b
  · show parseBool (falseChars ++ rest) = some (false, rest)
    rw [parseBool, show expectChars trueChars (falseChars ++ rest) = none from rfl,
      expectChars_append]
  · show parseBool (trueChars ++ rest) = some (true, rest)
    rw [parseBool, expectChars_append]

theorem parseOptions_render (o : QueryPlanOptions) (rest : List Char) :
    parseOptions (renderOptions o ++ rest) = some (o, rest) := by
  rw [renderOptions]
  simp only [List.cons_append, List.append_assoc, List.singleton_append]
  simp [parseOptions, expectChars_cons_self, expectChars_append, parseBool_render]

theorem length_le_flatMap_services (xs : List ServiceDefinition) :
    xs.length ≤ (xs.flatMap (fun s => ',' :: renderService s)).length := by
  induction xs with
  | nil => simp
  | cons x xs ih =>
    rw [List.flatMap_cons, List.length_append]
    simp only [List.length_cons]
    omega

theorem parseServiceListAux_render (xs : List ServiceDefinition) :
    ∀ (fuel : Nat) (rest : List Char), xs.length < fuel →
      parseServiceListAux fuel
          (xs.flatMap (fun s => ',' :: renderService s) ++ ']' :: rest) =
        some (xs, rest) := by
  induction xs with
  | nil =>
    intro fuel rest h
    match fuel, h with
    | f + 1, _ =>
      simp only [List.flatMap_nil, List.nil_append]
      rfl
  | cons x xs ih =>
    intro fuel rest h
    match fuel, h with
    | f + 1, h =>
      have hf : xs.length < f := by
        simp only [List.length_cons] at h
        omega
      rw [List.flatMap_cons]
      simp only [List.cons_append, List.append_assoc]
      have step : parseServiceListAux (f + 1)
          (',' :: (renderService x ++
            (xs.flatMap (fun s => ',' :: renderService s) ++ ']' :: rest))) = (do
          let (s, l2) ← parseService (renderService x ++
            (xs.flatMap (fun s => ',' :: renderService s) ++ ']' :: rest))
          let (ss, l3) ← parseServiceListAux f l2
          pure (s :: ss, l3)) := rfl
      rw [step, parseService_render x]
      show (do
        let (ss, l3) ← parseServiceListAux f
          (xs.flatMap (fun s => ',' :: renderService s) ++ ']' :: rest)
        pure ((x :: ss : List ServiceDefinition), l3)) = some (x :: xs, rest)
      rw [ih f rest hf]
      rfl

theorem parseServiceList_render (l : ServiceList) (rest : List Char) :
    parseServiceList (renderServiceList l ++ rest) = some (l, rest) := by
  cases l with
  | nil => rfl
  | cons x xs =>
    rw [renderServiceList]
    simp only [List.cons_append, List.append_assoc, List.singleton_append,
      List.nil_append]
    have step : parseServiceList ('[' :: (renderService x ++
        (xs.flatMap (fun s => ',' :: renderService s) ++ ']' :: rest))) = (do
        let (s, l2) ← parseService (renderService x ++
          (xs.flatMap (fun s => ',' :: renderService s) ++ ']' :: rest))
        let (ss, l3) ← parseServiceListAux (l2.length + 1) l2
        pure (s :: ss, l3)) := rfl
    rw [step, parseService_render x]
    show (do
      let (ss, l3) ← parseServiceListAux
        ((xs.flatMap (fun s => ',' :: renderService s) ++ ']' :: rest).length + 1)
        (xs.flatMap (fun s => ',' :: renderService s) ++ ']' :: rest)
      pure ((x :: ss : List ServiceDefinition), l3)) = some (x :: xs, rest)
    have hfuel : xs.length <
        (xs.flatMap (fun s => ',' :: renderService s) ++ ']' :: rest).length + 1 := by
      have := length_le_flatMap_services xs
      simp only [List.length_append, List.length_cons]
      omega
    rw [parseServiceListAux_render xs _ rest hfuel]
    rfl

/-- C5: every global assignment the bridge executes is the fixed prefix plus
a payload produced by the serde_json data serializer, and that payload parses
back as data to exactly the request values — for arbitrary request strings,
including quotes and control characters, so request content cannot escape the
string literal it is serialized into. -/
theorem injection_is_data_serialization (s : String) (svc : ServiceDefinition)
    (c : OperationalContext) (o : QueryPlanOptions) :
    parseStringLit (renderStr s) = some (s, []) ∧
    parseService (renderService svc) = some (svc, []) ∧
    (∃ payload, contextInjectionText c = "context = ".data ++ payload ∧
      parseContext payload = some (c, [])) ∧
    (∃ payload, optionsInjectionText o = "options = ".data ++ payload ∧
      parseOptions payload = some (o, [])) := by
  refine ⟨?_, ?_, ⟨renderContext c, rfl, ?_⟩, ⟨renderOptions o, rfl, ?_⟩⟩
  · have := parseStringLit_render s []
    rwa [List.append_nil] at this
  · have := parseService_render svc []
    rwa [List.append_nil] at this
  · have := parseContext_render c []
    rwa [List.append_nil] at this
  · have := parseOptions_render o []
    rwa [List.append_nil] at this

/-- C7: the serviceList global injected by compose is the fixed prefix plus
the serialized array, and the sequence of services read back from that array
is exactly the input sequence — order is preserved end-to-end through
marshaling. -/
theorem service_list_order_preserved (l : ServiceList) :
    ∃ payload, composeInjectionText l = "serviceList = ".data ++ payload ∧
      parseServiceList payload = some (l, []) := by
  refine ⟨renderServiceList l, rfl, ?_⟩
  have := parseServiceList_render l []
  rwa [List.append_nil] at this

end Federation
